import Mathlib

/-!
Verification of the Booking Record Reconciliation & Funnel Analytics Engine
(`dashboard.py`): a shallow embedding of the deduplicator (`smart_dedup` and
the surrounding grouping in `get_inquiry_tracker_data`), the funnel metrics
computation (`calculate_lead_metrics`), and the pace comparison
(`calculate_booking_pace`), together with theorems settling the spec claims.

Modelling conventions:
* a parsed pandas timestamp (`pd.to_datetime(..., errors="coerce")`) is an
  `Option Nat` (`none` = `NaT`);
* sheet cells are `String`s, as delivered by `get_all_values()`;
* calendar dates produced by the date-resolution chains are abstracted as a
  resolved year plus an absolute day index (`SDate`); a textual date cell is a
  `DateField`: blank, non-blank-but-unparseable, or resolved;
* python string helpers (`.lower()`, `.strip()`, `in`) are re-implemented over
  `List Char` so that all definitions evaluate inside the kernel.
-/

/-- ASCII lower-casing of one character, as `str.lower()` does for ASCII. -/
def lowerChar (c : Char) : Char :=
  if 'A' ≤ c ∧ c ≤ 'Z' then Char.ofNat (c.toNat + 32) else c

/-- `str.lower()` on the character list of a string. -/
def pyLower (l : List Char) : List Char := l.map lowerChar

/-- Whitespace characters recognised by `str.strip()` (ASCII subset). -/
def isWSChar (c : Char) : Bool :=
  c == ' ' || c == '\t' || c == '\n' || c == '\r'

/-- `str.strip()` on the character list of a string. -/
def trimChars (l : List Char) : List Char :=
  ((l.dropWhile isWSChar).reverse.dropWhile isWSChar).reverse

/-- `.str.lower().str.strip()`, the normalisation `smart_dedup` applies to the
`Resolution` column before comparing it with `"booked"` / `"canceled"`. -/
def lowerTrim (l : List Char) : List Char := trimChars (pyLower l)

/-- Does `hay` start with `pat`? (helper for the substring test). -/
def startsWithChars : List Char → List Char → Bool
  | _, [] => true
  | [], _ :: _ => false
  | a :: as, b :: bs => a == b && startsWithChars as bs

/-- Python's `pat in hay` substring test on character lists. -/
def containsChars (pat : List Char) : List Char → Bool
  | [] => startsWithChars [] pat
  | h :: t => startsWithChars (h :: t) pat || containsChars pat t

/-!  ## Deduplicator (`get_inquiry_tracker_data` lines 120-168, `smart_dedup`) -/

/-- One row of the Inquiry Tracker sheet, restricted to the columns the
deduplicator reads.  `timestamp` is the parsed `_parsed_timestamp`
(`none` = unparseable, pandas `NaT`); the other fields are the raw cell
texts.  All remaining columns ride along unchanged and are irrelevant to
the dedup decision, so they are omitted from the embedding. -/
structure InquiryRow where
  timestamp : Option Nat
  event_date : String
  venue : String
  resolution : String
  deriving DecidableEq, Repr

/-- `group[resolution_col].str.lower().str.strip() == "booked"`. -/
def isBooked (r : InquiryRow) : Bool :=
  lowerTrim r.resolution.data == "booked".data

/-- `group[resolution_col].str.lower().str.strip() == "canceled"`. -/
def isCanceled (r : InquiryRow) : Bool :=
  lowerTrim r.resolution.data == "canceled".data

/-- Comparator for `sort_values("_parsed_timestamp", ascending=False)`:
newest first, `NaT` (unparseable) last. -/
def tsLe (a b : Option Nat) : Bool :=
  match a, b with
  | some i, some j => j ≤ i
  | some _, none => true
  | none, some _ => false
  | none, none => true

def rowLe (a b : InquiryRow) : Bool := tsLe a.timestamp b.timestamp

/-- `df.sort_values("_parsed_timestamp", ascending=False)` (stable sort,
newest first, `NaT` last). -/
def sortByNewest (l : List InquiryRow) : List InquiryRow := l.mergeSort rowLe

/-- Minimum of a list of naturals, `none` when empty (pandas `Series.min()`,
which skips `NaT`). -/
def minOpt (l : List Nat) : Option Nat :=
  l.foldl (fun acc n =>
    match acc with
    | none => some n
    | some m => some (min m n)) none

/-- `booked_rows["_parsed_timestamp"].min()`: the earliest parseable
timestamp among the group's Booked rows. -/
def minBookedTs (g : List InquiryRow) : Option Nat :=
  minOpt ((g.filter isBooked).filterMap (fun r => r.timestamp))

/-- The `valid_cancellations` count: Canceled rows whose (parseable)
timestamp is strictly after the earliest (parseable) Booked timestamp. -/
def validCancellations (g : List InquiryRow) : Nat :=
  match minBookedTs g with
  | none => 0
  | some m =>
      ((g.filter isCanceled).filter (fun r =>
        match r.timestamp with
        | some t => m < t
        | none => false)).length

/-- `smart_dedup` applied to one `(Event Date, Venue)` group, the group
being listed newest-first (as the pre-sorted dataframe delivers it).
`booked_rows` is `sortByNewest (g.filter isBooked)`; its length equals
`(g.filter isBooked).length`, which the branch conditions use directly. -/
def smart_dedup (g : List InquiryRow) : List InquiryRow :=
  if g.length = 1 then g
  else if (g.filter isBooked).length = 0 then g.take 1
  else if (g.filter isBooked).length - validCancellations g = 0 then
    if (g.filter isCanceled).length = 0 then g.take 1
    else (g.filter isCanceled).take 1
  else
    (sortByNewest (g.filter isBooked)).take
      ((g.filter isBooked).length - validCancellations g)

/-- The dedup grouping key: the verbatim `(Event Date, Venue (if known))`
cell texts. -/
def groupKey (r : InquiryRow) : List Char × List Char :=
  (r.event_date.data, r.venue.data)

/-- The `(Event Date, Venue)` group for key `k`, in the newest-first order
in which `groupby` hands it to `smart_dedup`. -/
def rowsWithKey (k : List Char × List Char) (rows : List InquiryRow) :
    List InquiryRow :=
  (sortByNewest rows).filter (fun r => groupKey r == k)

/-- Lexicographic order on character lists (python string `<=`). -/
def lexLe : List Char → List Char → Bool
  | [], _ => true
  | _ :: _, [] => false
  | a :: as, b :: bs => if a = b then lexLe as bs else decide (a < b)

/-- Order on group keys: lexicographic on the `(event date, venue)` pair,
matching the sorted group order of `df.groupby(..., sort=True)`. -/
def keyLe (a b : List Char × List Char) : Bool :=
  if a.1 = b.1 then lexLe a.2 b.2 else lexLe a.1 b.1

/-- The distinct group keys of the input, in the sorted order in which
`groupby` visits them. -/
def sortedKeys (rows : List InquiryRow) : List (List Char × List Char) :=
  ((rows.map groupKey).dedup).mergeSort keyLe

/-- The whole deduplication pass of `get_inquiry_tracker_data` (taken in
the normal case where the `Timestamp`, `Event Date` and
`Venue (if known)` columns exist — otherwise the code skips deduplication
entirely): sort by parsed timestamp (newest first), group by
`(Event Date, Venue (if known))`, and concatenate each group's
`smart_dedup` result in sorted group-key order, as
`groupby(..., sort=True).apply` does. -/
def reconcile (rows : List InquiryRow) : List InquiryRow :=
  (sortedKeys rows).flatMap (fun k => smart_dedup (rowsWithKey k rows))

/-- Number of Booked rows in a list, under `smart_dedup`'s
case/whitespace-insensitive match. -/
def countBooked (l : List InquiryRow) : Nat := l.countP isBooked

/-!  ### Basic lemmas about the deduplicator -/

theorem isBooked_not_isCanceled {r : InquiryRow} (h : isBooked r = true) :
    isCanceled r = false := by
  unfold isBooked at h
  unfold isCanceled
  have h2 : lowerTrim r.resolution.data = "booked".data := by simpa using h
  rw [h2]
  decide

theorem isCanceled_not_isBooked {r : InquiryRow} (h : isCanceled r = true) :
    isBooked r = false := by
  cases hb : isBooked r with
  | false => rfl
  | true => rw [isBooked_not_isCanceled hb] at h; exact absurd h (by simp)

theorem sortByNewest_perm (l : List InquiryRow) : (sortByNewest l).Perm l :=
  List.mergeSort_perm l rowLe

theorem validCancellations_le (g : List InquiryRow) :
    validCancellations g ≤ (g.filter isCanceled).length := by
  unfold validCancellations
  cases minBookedTs g with
  | none => exact Nat.zero_le _
  | some m => exact List.length_filter_le _ _

theorem validCancellations_of_no_booked {g : List InquiryRow}
    (h : g.filter isBooked = []) : validCancellations g = 0 := by
  unfold validCancellations minBookedTs
  rw [h]
  rfl

theorem countBooked_filter (g : List InquiryRow) :
    countBooked g = (g.filter isBooked).length := by
  simpa [countBooked] using List.countP_eq_length_filter isBooked g

/-- The net-booking count of one reconciled group: `smart_dedup` leaves
exactly `booked_count − valid_cancellations` (truncated at 0) Booked rows. -/
theorem countBooked_smart_dedup (g : List InquiryRow) :
    countBooked (smart_dedup g) = countBooked g - validCancellations g := by
  unfold smart_dedup
  split_ifs with h1 h2 h3 h4
  · -- singleton group kept unchanged
    match g, h1 with
    | [r], _ =>
      cases hb : isBooked r with
      | false =>
        simp [countBooked, List.countP_cons, hb]
      | true =>
        have hc : isCanceled r = false := isBooked_not_isCanceled hb
        have hvc : validCancellations [r] = 0 := by
          have : List.filter isCanceled [r] = [] := by simp [hc]
          have hle := validCancellations_le [r]
          rw [this] at hle
          simp only [List.length_nil] at hle
          omega
        simp [countBooked, List.countP_cons, hb, hvc]
  · -- no Booked rows: keep the newest row
    have hg : countBooked g = 0 := by
      rw [countBooked_filter]; exact h2
    have : countBooked (g.take 1) = 0 := by
      have hsub := List.Sublist.countP_le isBooked (List.take_sublist 1 g)
      simp only [countBooked] at hg ⊢
      omega
    rw [this, hg]
    omega
  · -- net = 0 and no Canceled row: impossible given Booked rows exist
    exfalso
    have hvc := validCancellations_le g
    rw [h4] at hvc
    omega
  · -- net = 0: keep the newest Canceled row, which is not Booked
    have hzero : countBooked ((g.filter isCanceled).take 1) = 0 := by
      simp only [countBooked]
      rw [List.countP_eq_zero]
      intro a ha
      have ha2 := List.mem_of_mem_take ha
      have := (List.mem_filter.mp ha2).2
      simp [isCanceled_not_isBooked this]
    rw [hzero, countBooked_filter]
    omega
  · -- net > 0: keep the `net` newest Booked rows
    have hlen : (sortByNewest (g.filter isBooked)).length
        = (g.filter isBooked).length :=
      (sortByNewest_perm _).length_eq
    have hall : countBooked ((sortByNewest (g.filter isBooked)).take
        ((g.filter isBooked).length - validCancellations g))
        = ((g.filter isBooked).length - validCancellations g) := by
      simp only [countBooked]
      rw [List.countP_eq_length.mpr]
      · rw [List.length_take, hlen]
        omega
      · intro a ha
        have ha2 := (sortByNewest_perm (g.filter isBooked)).mem_iff.mp
          (List.mem_of_mem_take ha)
        exact (List.mem_filter.mp ha2).2
    rw [hall, countBooked_filter]

theorem mem_smart_dedup {g : List InquiryRow} {x : InquiryRow}
    (h : x ∈ smart_dedup g) : x ∈ g := by
  unfold smart_dedup at h
  split_ifs at h
  · exact h
  · exact List.mem_of_mem_take h
  · exact List.mem_of_mem_take h
  · exact List.mem_of_mem_filter (List.mem_of_mem_take h)
  · exact List.mem_of_mem_filter
      ((sortByNewest_perm _).mem_iff.mp (List.mem_of_mem_take h))

theorem length_smart_dedup_le (g : List InquiryRow) :
    (smart_dedup g).length ≤ g.length := by
  unfold smart_dedup
  split_ifs
  · exact Nat.le_refl _
  · exact (List.take_sublist 1 g).length_le
  · exact (List.take_sublist 1 g).length_le
  · exact le_trans (List.take_sublist 1 _).length_le
      (List.length_filter_le _ _)
  · have h5 := (List.take_sublist
      ((g.filter isBooked).length - validCancellations g)
      (sortByNewest (g.filter isBooked))).length_le
    have h6 := (sortByNewest_perm (g.filter isBooked)).length_eq
    have h7 := List.length_filter_le isBooked g
    omega

theorem smart_dedup_ne_nil {g : List InquiryRow} (h : g ≠ []) :
    smart_dedup g ≠ [] := by
  have hg : 0 < g.length := List.length_pos.mpr h
  unfold smart_dedup
  split_ifs with h1 h2 h3 h4
  · exact h
  · intro hcon
    have := congrArg List.length hcon
    rw [List.length_take] at this
    simp only [List.length_nil] at this
    omega
  · intro hcon
    have := congrArg List.length hcon
    rw [List.length_take] at this
    simp only [List.length_nil] at this
    omega
  · intro hcon
    have := congrArg List.length hcon
    rw [List.length_take] at this
    simp only [List.length_nil] at this
    omega
  · intro hcon
    have hlen := congrArg List.length hcon
    rw [List.length_take] at hlen
    simp only [List.length_nil] at hlen
    have h6 := (sortByNewest_perm (g.filter isBooked)).length_eq
    rw [h6] at hlen
    omega

theorem mem_rowsWithKey {k : List Char × List Char} {rows : List InquiryRow}
    {x : InquiryRow} :
    x ∈ rowsWithKey k rows ↔ x ∈ rows ∧ groupKey x = k := by
  unfold rowsWithKey
  rw [List.mem_filter, (sortByNewest_perm rows).mem_iff]
  simp [beq_iff_eq]

theorem mem_sortedKeys {rows : List InquiryRow} {k : List Char × List Char} :
    k ∈ sortedKeys rows ↔ ∃ r ∈ rows, groupKey r = k := by
  unfold sortedKeys
  rw [(List.mergeSort_perm _ keyLe).mem_iff, List.mem_dedup, List.mem_map]

theorem nodup_sortedKeys (rows : List InquiryRow) : (sortedKeys rows).Nodup :=
  (List.nodup_dedup _).perm (List.mergeSort_perm _ keyLe).symm

theorem key_of_mem_dedup_group {k : List Char × List Char}
    {rows : List InquiryRow} {x : InquiryRow}
    (h : x ∈ smart_dedup (rowsWithKey k rows)) : groupKey x = k :=
  (mem_rowsWithKey.mp (mem_smart_dedup h)).2

theorem filter_flatMap_key {ks : List (List Char × List Char)}
    {f : List Char × List Char → List InquiryRow}
    (hnd : ks.Nodup)
    (hkey : ∀ j ∈ ks, ∀ x ∈ f j, groupKey x = j)
    (k : List Char × List Char) :
    (ks.flatMap f).filter (fun r => groupKey r == k)
      = if k ∈ ks then f k else [] := by
  induction ks with
  | nil => simp
  | cons j t ih =>
    have hndt : t.Nodup := hnd.of_cons
    have hkeyt : ∀ j2 ∈ t, ∀ x ∈ f j2, groupKey x = j2 := by
      intro j2 hj2 x hx
      exact hkey j2 (List.mem_cons_of_mem j hj2) x hx
    rw [List.flatMap_cons, List.filter_append, ih hndt hkeyt]
    by_cases hkj : k = j
    · subst hkj
      have hself : (f k).filter (fun r => groupKey r == k) = f k := by
        rw [List.filter_eq_self]
        intro a ha
        simp [hkey k (List.mem_cons_self k t) a ha]
      have hknt : k ∉ t := (List.nodup_cons.mp hnd).1
      rw [hself, if_neg hknt, if_pos (List.mem_cons_self k t),
        List.append_nil]
    · have hnil : (f j).filter (fun r => groupKey r == k) = [] := by
        rw [List.filter_eq_nil_iff]
        intro a ha
        simp [hkey j (List.mem_cons_self j t) a ha, Ne.symm hkj]
      rw [hnil, List.nil_append]
      by_cases hkt : k ∈ t
      · rw [if_pos hkt, if_pos (List.mem_cons_of_mem j hkt)]
      · rw [if_neg hkt, if_neg (by
          intro hmem
          rcases List.mem_cons.mp hmem with h | h
          · exact hkj h
          · exact hkt h)]

theorem reconcile_filter_key (rows : List InquiryRow)
    (k : List Char × List Char) :
    (reconcile rows).filter (fun r => groupKey r == k)
      = if k ∈ sortedKeys rows then smart_dedup (rowsWithKey k rows)
        else [] := by
  unfold reconcile
  exact filter_flatMap_key (nodup_sortedKeys rows)
    (fun j _ x hx => key_of_mem_dedup_group hx) k

/-- **C1**: for every input and every `(event_date, venue)` key, the group
that `reconcile` produces for that key contains exactly
`max(0, b − c)` Booked rows, where `b` is the number of Booked rows in the
key's input group and `c` the number of its Canceled rows whose timestamp
is strictly after the earliest Booked timestamp (`validCancellations`). -/
theorem claim_C1_net_booking (rows : List InquiryRow)
    (k : List Char × List Char) :
    (countBooked ((reconcile rows).filter (fun r => groupKey r == k)) : Int)
      = max 0 ((countBooked (rowsWithKey k rows) : Int)
          - (validCancellations (rowsWithKey k rows) : Int)) := by
  rw [reconcile_filter_key]
  split_ifs with hk
  · have h := countBooked_smart_dedup (rowsWithKey k rows)
    rw [h, max_def]
    split_ifs <;> omega
  · have hempty : rowsWithKey k rows = [] := by
      rw [List.eq_nil_iff_forall_not_mem]
      intro x hx
      have hm := mem_rowsWithKey.mp hx
      exact hk (mem_sortedKeys.mpr ⟨x, hm.1, hm.2⟩)
    rw [hempty]
    simp [countBooked, validCancellations, minBookedTs, minOpt]

/-!  ### Order lemmas for the sort comparators -/

theorem tsLe_total (a b : Option Nat) : (tsLe a b || tsLe b a) = true := by
  cases a <;> cases b <;> simp [tsLe]
  omega

theorem tsLe_trans {a b c : Option Nat} (h1 : tsLe a b = true)
    (h2 : tsLe b c = true) : tsLe a c = true := by
  cases a <;> cases b <;> cases c <;> simp_all [tsLe]
  omega

theorem rowLe_total (a b : InquiryRow) : (rowLe a b || rowLe b a) = true :=
  tsLe_total a.timestamp b.timestamp

theorem rowLe_trans (a b c : InquiryRow) (h1 : rowLe a b = true)
    (h2 : rowLe b c = true) : rowLe a c = true :=
  tsLe_trans h1 h2

theorem lexLe_total (a b : List Char) : (lexLe a b || lexLe b a) = true := by
  induction a generalizing b with
  | nil => simp [lexLe]
  | cons x xs ih =>
    cases b with
    | nil => simp [lexLe]
    | cons y ys =>
      by_cases hxy : x = y
      · subst hxy
        simpa [lexLe] using ih ys
      · rcases lt_or_gt_of_ne hxy with h | h
        · simp [lexLe, hxy, Ne.symm hxy, h]
      
        · simp [lexLe, hxy, Ne.symm hxy, h, not_lt_of_gt h]

theorem lexLe_trans {a b c : List Char} (h1 : lexLe a b = true)
    (h2 : lexLe b c = true) : lexLe a c = true := by
  induction a generalizing b c with
  | nil => simp [lexLe]
  | cons x xs ih =>
    cases b with
    | nil => simp [lexLe] at h1
    | cons y ys =>
      cases c with
      | nil => simp [lexLe] at h2
      | cons z zs =>
        by_cases hxy : x = y <;> by_cases hyz : y = z
        · subst hxy; subst hyz
          simp only [lexLe, if_pos rfl] at h1 h2 ⊢
          exact ih h1 h2
        · subst hxy
          simp only [lexLe, if_pos rfl, if_neg hyz] at h1 h2 ⊢
          exact h2
        · subst hyz
          simp only [lexLe, if_pos rfl, if_neg hxy] at h1 h2 ⊢
          exact h1
        · simp only [lexLe, if_neg hxy, if_neg hyz, decide_eq_true_eq] at h1 h2
          have hxz : x < z := lt_trans h1 h2
          simp [lexLe, ne_of_lt hxz, hxz]

theorem lexLe_antisymm {a b : List Char} (h1 : lexLe a b = true)
    (h2 : lexLe b a = true) : a = b := by
  induction a generalizing b with
  | nil =>
    cases b with
    | nil => rfl
    | cons y ys => simp [lexLe] at h2
  | cons x xs ih =>
    cases b with
    | nil => simp [lexLe] at h1
    | cons y ys =>
      by_cases hxy : x = y
      · subst hxy
        simp only [lexLe, if_pos rfl] at h1 h2
        rw [ih h1 h2]
      · simp only [lexLe, if_neg hxy, if_neg (Ne.symm hxy),
          decide_eq_true_eq] at h1 h2
        exact absurd h2 (not_lt_of_gt h1)

theorem keyLe_total (a b : List Char × List Char) :
    (keyLe a b || keyLe b a) = true := by
  unfold keyLe
  by_cases h : a.1 = b.1
  · simp [h, lexLe_total a.2 b.2]
  · simp [h, Ne.symm h, lexLe_total a.1 b.1]

theorem keyLe_trans (a b c : List Char × List Char) (h1 : keyLe a b = true)
    (h2 : keyLe b c = true) : keyLe a c = true := by
  unfold keyLe at h1 h2 ⊢
  by_cases hab : a.1 = b.1 <;> by_cases hbc : b.1 = c.1
  · rw [if_pos hab] at h1
    rw [if_pos hbc] at h2
    rw [if_pos (hab.trans hbc)]
    exact lexLe_trans h1 h2
  · rw [if_pos hab] at h1
    rw [if_neg hbc] at h2
    rw [if_neg (hab ▸ hbc), hab]
    exact h2
  · rw [if_neg hab] at h1
    rw [if_pos hbc] at h2
    rw [if_neg (hbc ▸ hab), ← hbc]
    exact h1
  · rw [if_neg hab] at h1
    rw [if_neg hbc] at h2
    have hac : lexLe a.1 c.1 = true := lexLe_trans h1 h2
    by_cases h : a.1 = c.1
    · exfalso
      exact hab (lexLe_antisymm h1 (h ▸ h2))
    · rw [if_neg h]
      exact hac

theorem keyLe_antisymm {a b : List Char × List Char} (h1 : keyLe a b = true)
    (h2 : keyLe b a = true) : a = b := by
  unfold keyLe at h1 h2
  by_cases hab : a.1 = b.1
  · rw [if_pos hab] at h1
    rw [if_pos hab.symm] at h2
    exact Prod.ext hab (lexLe_antisymm h1 h2)
  · rw [if_neg hab] at h1
    rw [if_neg (Ne.symm hab)] at h2
    exact absurd (lexLe_antisymm h1 h2) hab

/-!  ### The groups partition the sorted input -/

theorem groups_partition_perm {ks : List (List Char × List Char)}
    {S : List InquiryRow}
    (hnd : ks.Nodup) (hcover : ∀ r ∈ S, groupKey r ∈ ks) :
    (ks.flatMap (fun k => S.filter (fun r => groupKey r == k))).Perm S := by
  induction ks generalizing S with
  | nil =>
    have hS : S = [] := by
      rw [List.eq_nil_iff_forall_not_mem]
      intro x hx
      exact absurd (hcover x hx) (List.not_mem_nil _)
    simp [hS]
  | cons k t ih =>
    rw [List.flatMap_cons]
    have hkt : k ∉ t := (List.nodup_cons.mp hnd).1
    have htail : t.flatMap (fun j => S.filter (fun r => groupKey r == j))
        = t.flatMap (fun j =>
            (S.filter (fun r => !(groupKey r == k))).filter
              (fun r => groupKey r == j)) := by
      apply List.flatMap_congr
      intro j hj
      rw [List.filter_filter]
      apply List.filter_congr
      intro x hx
      have hjk : j ≠ k := fun h => hkt (h ▸ hj)
      by_cases hxj : groupKey x = j
      · simp [hxj, hjk]
      · simp [hxj]
    rw [htail]
    have hcov2 : ∀ r ∈ S.filter (fun r => !(groupKey r == k)),
        groupKey r ∈ t := by
      intro r hr
      have hm := List.mem_filter.mp hr
      rcases List.mem_cons.mp (hcover r hm.1) with h | h
      · exfalso
        have := hm.2
        simp [h] at this
      · exact h
    have ihS := ih (List.Nodup.of_cons hnd) hcov2
    exact (ihS.append_left _).trans (List.filter_append_perm _ S)

theorem cover_sortByNewest (rows : List InquiryRow) :
    ∀ r ∈ sortByNewest rows, groupKey r ∈ sortedKeys rows := by
  intro r hr
  exact mem_sortedKeys.mpr ⟨r, (sortByNewest_perm rows).mem_iff.mp hr, rfl⟩

/-- **C10**: reconciliation only selects among existing rows: every output
row is one of the input rows (all fields unchanged), and the output is no
longer than the input. -/
theorem claim_C10_output_subset (rows : List InquiryRow) :
    (∀ x ∈ reconcile rows, x ∈ rows) ∧
      (reconcile rows).length ≤ rows.length := by
  constructor
  · intro x hx
    rcases List.mem_flatMap.mp hx with ⟨k, _, hxk⟩
    exact (mem_rowsWithKey.mp (mem_smart_dedup hxk)).1
  · have hpart := groups_partition_perm (nodup_sortedKeys rows)
      (cover_sortByNewest rows)
    have hlen2 := hpart.length_eq
    have hlen3 := (sortByNewest_perm rows).length_eq
    unfold reconcile
    rw [List.length_flatMap]
    rw [List.length_flatMap] at hlen2
    have hle : (List.map
          (List.length ∘ fun k => smart_dedup (rowsWithKey k rows))
          (sortedKeys rows)).sum
        ≤ (List.map
          (List.length ∘ fun k =>
            (sortByNewest rows).filter (fun r => groupKey r == k))
          (sortedKeys rows)).sum := by
      apply List.sum_le_sum
      intro k _
      exact length_smart_dedup_le (rowsWithKey k rows)
    omega

/-!  ### `smart_dedup` output is sorted, and idempotent -/

theorem pairwise_of_length_le_one {l : List InquiryRow}
    (h : l.length ≤ 1) : l.Pairwise (fun a b => rowLe a b = true) := by
  match l, h with
  | [], _ => exact List.Pairwise.nil
  | [a], _ => exact List.pairwise_singleton _ a

theorem pairwise_smart_dedup {g : List InquiryRow}
    (hg : g.Pairwise (fun a b => rowLe a b = true)) :
    (smart_dedup g).Pairwise (fun a b => rowLe a b = true) := by
  unfold smart_dedup
  split_ifs
  · exact hg
  · exact List.Pairwise.sublist (List.take_sublist 1 g) hg
  · exact List.Pairwise.sublist (List.take_sublist 1 g) hg
  · exact List.Pairwise.sublist (List.take_sublist 1 _)
      (List.Pairwise.sublist (List.filter_sublist g) hg)
  · exact List.Pairwise.sublist (List.take_sublist _ _)
      (List.sorted_mergeSort rowLe_trans rowLe_total (g.filter isBooked))

theorem pairwise_sortByNewest (l : List InquiryRow) :
    (sortByNewest l).Pairwise (fun a b => rowLe a b = true) :=
  List.sorted_mergeSort rowLe_trans rowLe_total l

theorem pairwise_rowsWithKey (k : List Char × List Char)
    (rows : List InquiryRow) :
    (rowsWithKey k rows).Pairwise (fun a b => rowLe a b = true) :=
  List.Pairwise.sublist (List.filter_sublist _) (pairwise_sortByNewest rows)

theorem all_booked_of_two_le {g : List InquiryRow}
    (h2 : 2 ≤ (smart_dedup g).length) :
    ∀ x ∈ smart_dedup g, isBooked x = true := by
  unfold smart_dedup at h2 ⊢
  split_ifs at h2 ⊢ with h1 hb hn hc
  · omega
  · rw [List.length_take] at h2
    omega
  · rw [List.length_take] at h2
    omega
  · rw [List.length_take] at h2
    omega
  · intro x hx
    have hm := (sortByNewest_perm (g.filter isBooked)).mem_iff.mp
      (List.mem_of_mem_take hx)
    exact (List.mem_filter.mp hm).2

theorem smart_dedup_sorted_of_group {k : List Char × List Char}
    {rows : List InquiryRow} :
    (smart_dedup (rowsWithKey k rows)).Pairwise
      (fun a b => rowLe a b = true) :=
  pairwise_smart_dedup (pairwise_rowsWithKey k rows)

theorem smart_dedup_idem {g : List InquiryRow}
    (hg : g.Pairwise (fun a b => rowLe a b = true)) :
    smart_dedup (smart_dedup g) = smart_dedup g := by
  rcases Nat.lt_or_ge (smart_dedup g).length 2 with hlt | hge
  · -- output of length 0 or 1: the first branch (or emptiness) keeps it
    have h01 : (smart_dedup g).length = 0 ∨ (smart_dedup g).length = 1 := by
      omega
    rcases h01 with h0 | h1
    · rw [List.length_eq_zero.mp h0]
      rfl
    · conv_lhs => rw [smart_dedup]
      rw [if_pos h1]
  · -- output of length ≥ 2: all rows Booked and already sorted
    have hall := all_booked_of_two_le hge
    have hpw := pairwise_smart_dedup hg
    have hb : (smart_dedup g).filter isBooked = smart_dedup g :=
      List.filter_eq_self.mpr hall
    have hc : (smart_dedup g).filter isCanceled = [] := by
      rw [List.filter_eq_nil_iff]
      intro a ha
      simp [isBooked_not_isCanceled (hall a ha)]
    have hvc : validCancellations (smart_dedup g) = 0 := by
      have := validCancellations_le (smart_dedup g)
      rw [hc] at this
      simpa using this
    generalize hD : smart_dedup g = d at hge hpw hb hvc ⊢
    unfold smart_dedup
    rw [hb, hvc, Nat.sub_zero, if_neg (by omega), if_neg (by omega),
      if_neg (by omega)]
    unfold sortByNewest
    rw [List.mergeSort_of_sorted hpw, List.take_length]

/-!  ### Reconciliation preserves the key set, and regrouping its output
recovers exactly the per-key dedup results -/

theorem mem_keys_reconcile {rows : List InquiryRow}
    {k : List Char × List Char} :
    k ∈ sortedKeys (reconcile rows) ↔ k ∈ sortedKeys rows := by
  constructor
  · intro hk
    rcases mem_sortedKeys.mp hk with ⟨x, hx, hkx⟩
    rcases List.mem_flatMap.mp hx with ⟨j, hj, hxj⟩
    have := key_of_mem_dedup_group hxj
    rw [hkx] at this
    exact this ▸ hj
  · intro hk
    rcases mem_sortedKeys.mp hk with ⟨r, hr, hkr⟩
    have hne : rowsWithKey k rows ≠ [] :=
      List.ne_nil_of_mem (mem_rowsWithKey.mpr ⟨hr, hkr⟩)
    rcases List.exists_mem_of_ne_nil _ (smart_dedup_ne_nil hne) with ⟨x, hx⟩
    have hxout : x ∈ reconcile rows :=
      List.mem_flatMap.mpr ⟨k, hk, hx⟩
    exact mem_sortedKeys.mpr ⟨x, hxout, key_of_mem_dedup_group hx⟩

theorem sortedKeys_reconcile (rows : List InquiryRow) :
    sortedKeys (reconcile rows) = sortedKeys rows := by
  have hperm : (((reconcile rows).map groupKey).dedup).Perm
      ((rows.map groupKey).dedup) := by
    rw [List.perm_ext_iff_of_nodup (List.nodup_dedup _) (List.nodup_dedup _)]
    intro k
    have h1 : k ∈ ((reconcile rows).map groupKey).dedup
        ↔ k ∈ sortedKeys (reconcile rows) :=
      ((List.mergeSort_perm _ keyLe).mem_iff (a := k)).symm
    have h2 : k ∈ (rows.map groupKey).dedup ↔ k ∈ sortedKeys rows :=
      ((List.mergeSort_perm _ keyLe).mem_iff (a := k)).symm
    rw [h1, h2]
    exact mem_keys_reconcile
  unfold sortedKeys
  have s1 := List.sorted_mergeSort keyLe_trans keyLe_total
    (((reconcile rows).map groupKey).dedup)
  have s2 := List.sorted_mergeSort keyLe_trans keyLe_total
    ((rows.map groupKey).dedup)
  have hp : ((((reconcile rows).map groupKey).dedup).mergeSort keyLe).Perm
      (((rows.map groupKey).dedup).mergeSort keyLe) :=
    ((List.mergeSort_perm _ keyLe).trans hperm).trans
      (List.mergeSort_perm _ keyLe).symm
  exact @List.eq_of_perm_of_sorted _ (fun a b => keyLe a b = true)
    ⟨fun a b h1 h2 => keyLe_antisymm h1 h2⟩ _ _ hp s1 s2

theorem regroup_reconcile {rows : List InquiryRow}
    {k : List Char × List Char} (hk : k ∈ sortedKeys rows) :
    rowsWithKey k (reconcile rows) = smart_dedup (rowsWithKey k rows) := by
  have h1 : (reconcile rows).filter (fun r => groupKey r == k)
      = smart_dedup (rowsWithKey k rows) := by
    rw [reconcile_filter_key, if_pos hk]
  -- the dedup result for key `k` sits, sorted, inside the reconciled output
  rcases List.append_of_mem hk with ⟨s, t, hst⟩
  have hsub : (smart_dedup (rowsWithKey k rows)).Sublist (reconcile rows) := by
    unfold reconcile
    rw [hst, List.flatMap_append, List.flatMap_cons]
    exact List.Sublist.trans
      (List.sublist_append_left (smart_dedup (rowsWithKey k rows))
        (t.flatMap (fun j => smart_dedup (rowsWithKey j rows))))
      (List.sublist_append_right
        (s.flatMap (fun j => smart_dedup (rowsWithKey j rows))) _)
  have hsorted : (smart_dedup (rowsWithKey k rows)).Pairwise
      (fun a b => rowLe a b = true) := smart_dedup_sorted_of_group
  have hstable : (smart_dedup (rowsWithKey k rows)).Sublist
      (sortByNewest (reconcile rows)) :=
    List.sublist_mergeSort rowLe_trans rowLe_total hsorted hsub
  have hself : (smart_dedup (rowsWithKey k rows)).filter
      (fun r => groupKey r == k) = smart_dedup (rowsWithKey k rows) := by
    rw [List.filter_eq_self]
    intro a ha
    simp [key_of_mem_dedup_group ha]
  have hsubf : (smart_dedup (rowsWithKey k rows)).Sublist
      ((sortByNewest (reconcile rows)).filter
        (fun r => groupKey r == k)) := by
    conv_lhs => rw [← hself]
    exact List.Sublist.filter _ hstable
  have hlen : ((sortByNewest (reconcile rows)).filter
      (fun r => groupKey r == k)).length
      = (smart_dedup (rowsWithKey k rows)).length := by
    have hp := (sortByNewest_perm (reconcile rows)).filter
      (fun r => groupKey r == k)
    rw [hp.length_eq, h1]
  unfold rowsWithKey
  exact (hsubf.eq_of_length hlen.symm).symm

/-- **C2**: `reconcile` is idempotent — applying the deduplication a second
time to its own output returns that output unchanged. -/
theorem claim_C2_reconcile_idempotent (rows : List InquiryRow) :
    reconcile (reconcile rows) = reconcile rows := by
  conv_lhs => rw [reconcile]
  rw [sortedKeys_reconcile]
  have hcong : ∀ k ∈ sortedKeys rows,
      smart_dedup (rowsWithKey k (reconcile rows))
        = smart_dedup (rowsWithKey k rows) := by
    intro k hk
    rw [regroup_reconcile hk, smart_dedup_idem (pairwise_rowsWithKey k rows)]
  rw [List.flatMap_congr hcong]
  rfl

/-!  ## Funnel metrics (`calculate_lead_metrics`, lines 626-842)

The date-resolution chains (`pd.to_datetime` with the `%m/%d/%y`,
`%m/%d/%Y`, `%Y-%m-%d` formats and the permissive fallback) are external
parsing collaborators; their outcome on a date cell is abstracted as a
`DateField`: the cell is blank (`str.strip() == ""`), non-blank but
unparseable (`NaT` under `errors="coerce"`), or resolved to a calendar
date.  A resolved date carries its year and an absolute day index, which
is all the metric computations consume (`dt.year`, day subtraction). -/

/-- A resolved calendar date: its year and its absolute day index. -/
structure SDate where
  year : Int
  days : Int
  deriving DecidableEq, Repr

/-- A textual date cell, as the metric code observes it. -/
inductive DateField where
  | blank : DateField
  | junk : DateField
  | resolved : SDate → DateField
  deriving DecidableEq, Repr

/-- One record consumed by `calculate_lead_metrics` (post-dedup row). -/
structure MRec where
  event_date : DateField
  inquiry_date : DateField
  decision_date : DateField
  resolution : String
  level_of_interaction : String
  initial_contact : String
  venue : String
  deriving DecidableEq, Repr

/-- `is_2026_event`: blank cells are `False`, unparseable cells fall through
every format and the coerced fallback to `False`, resolved cells compare
their year with 2026. -/
def is_2026_event (r : MRec) : Bool :=
  match r.event_date with
  | DateField.resolved d => d.year == 2026
  | _ => false

/-- `.astype(str).str.strip() != ""`: the cell is not blank. -/
def presentDF : DateField → Bool
  | DateField.blank => false
  | _ => true

/-- The `df_with_dates` condition: both `Inquiry Date` and `Decision Date`
cells are non-blank (parseability is not checked here). -/
def hasBothDates (r : MRec) : Bool :=
  presentDF r.inquiry_date && presentDF r.decision_date

/-- Whether the cell resolved to an actual date. -/
def parsedDF : DateField → Bool
  | DateField.resolved _ => true
  | _ => false

/-- `df_2026_events`. -/
def ev2026 (rows : List MRec) : List MRec := rows.filter is_2026_event

/-- `df_with_dates`. -/
def wdOf (rows : List MRec) : List MRec := (ev2026 rows).filter hasBothDates

/-- `resolution_counts.get(s, 0)`: rows whose `Resolution` equals `s`
verbatim (the funnel code compares exact strings). -/
def countRes (l : List MRec) (s : String) : Nat :=
  (l.filter (fun r => r.resolution == s)).length

/-- `cold_never_acknowledged` (lines 709-712). -/
def cnaOf (rows : List MRec) : Nat :=
  ((wdOf rows).filter (fun r =>
    r.resolution == "Cold"
      && r.level_of_interaction == "Never acknowledged")).length

/-- `adjusted_denominator` (lines 714-717). -/
def adjustedDenomOf (rows : List MRec) : Int :=
  ((wdOf rows).length : Int) - countRes (wdOf rows) "Full"
    - countRes (wdOf rows) "We turn down" - cnaOf rows

/-- Insert into an ascending list (helper for `sorted(times)`). -/
def insertSorted (x : Int) : List Int → List Int
  | [] => [x]
  | y :: ys => if x ≤ y then x :: y :: ys else y :: insertSorted x ys

/-- `sorted(times)`: ascending insertion sort (kernel-computable). -/
def sortInts (l : List Int) : List Int := l.foldr insertSorted []

/-- Per-outcome lead-time statistics (lines 766-777). -/
structure LTStats where
  avg_days : Rat
  avg_months : Rat
  median_days : Int
  median_months : Rat
  count : Nat
  deriving DecidableEq, Repr

/-- Per-outcome days-to-decision statistics (lines 780-786). -/
structure DStats where
  avg_days : Rat
  median_days : Int
  count : Nat
  deriving DecidableEq, Repr

/-- Per-segment conversion statistics (lines 790-826). -/
structure SegStat where
  total : Nat
  booked : Nat
  conversion_rate : Rat
  deriving DecidableEq, Repr

/-- The 30.44-day month used by the lead-time report. -/
def monthDays : Rat := (3044 : Rat) / 100

/-- `avg`/`median` of one non-empty bucket: the mean, and
`sorted(times)[len(times) // 2]`. -/
def statsOf (times : List Int) : LTStats :=
  { avg_days := (times.sum : Rat) / (times.length : Rat)
  , avg_months := ((times.sum : Rat) / (times.length : Rat)) / monthDays
  , median_days := (sortInts times).getD (times.length / 2) 0
  , median_months :=
      (((sortInts times).getD (times.length / 2) 0 : Int) : Rat) / monthDays
  , count := times.length }

def dstatsOf (times : List Int) : DStats :=
  { avg_days := (times.sum : Rat) / (times.length : Rat)
  , median_days := (sortInts times).getD (times.length / 2) 0
  , count := times.length }

/-- Appending one value to the bucket of key `k` (python dict with list
values, insertion order preserved). -/
def insertBucket : List (String × List Int) → String → Int →
    List (String × List Int)
  | [], k, v => [(k, [v])]
  | (k0, vs) :: rest, k, v =>
      if k0 == k then (k0, vs ++ [v]) :: rest
      else (k0, vs) :: insertBucket rest k v

/-- `lead_times_by_resolution` (lines 730-748): `event_date − inquiry_date`
in days, skipping rows whose dates do not both resolve and negative
differences. -/
def leadBuckets (wd : List MRec) : List (String × List Int) :=
  wd.foldl (fun bs r =>
    match r.event_date, r.inquiry_date with
    | DateField.resolved e, DateField.resolved i =>
        if 0 ≤ e.days - i.days then
          insertBucket bs r.resolution (e.days - i.days)
        else bs
    | _, _ => bs) []

/-- `days_to_decision_by_resolution` (lines 750-762). -/
def decisionBuckets (wd : List MRec) : List (String × List Int) :=
  wd.foldl (fun bs r =>
    match r.decision_date, r.inquiry_date with
    | DateField.resolved d, DateField.resolved i =>
        if 0 ≤ d.days - i.days then
          insertBucket bs r.resolution (d.days - i.days)
        else bs
    | _, _ => bs) []

/-- `groupby` key order: sorted distinct strings. -/
def sortStrings (l : List String) : List String :=
  l.dedup.mergeSort (fun a b => lexLe a.data b.data)

/-- One segment breakdown (`by_source` / `by_interaction`): group the
with-dates records by `f`, exclude `Full` and `We turn down` from each
group's denominator, and keep groups with a positive adjusted total. -/
def segStats (wd : List MRec) (f : MRec → String) :
    List (String × SegStat) :=
  (sortStrings (wd.map f)).filterMap (fun s =>
    let grp := wd.filter (fun r => f r == s)
    let adjusted := grp.length - countRes grp "Full"
      - countRes grp "We turn down"
    if 0 < adjusted then
      some (s, { total := adjusted
               , booked := countRes grp "Booked"
               , conversion_rate :=
                   (countRes grp "Booked" : Rat) / (adjusted : Rat) * 100 })
    else none)

/-- An AAG house-DJ handoff record (lines 833-837): venue text contains
"Allied Arts" or "AAG" case-insensitively, resolution exactly `Booked`,
interaction level containing "never" case-insensitively. -/
def houseRec (r : MRec) : Bool :=
  (containsChars "allied arts".data (pyLower r.venue.data)
      || containsChars "aag".data (pyLower r.venue.data))
    && r.resolution == "Booked"
    && containsChars "never".data (pyLower r.level_of_interaction.data)

/-- The metrics report dictionary (the `_debug` diagnostics are advisory
strings and are omitted). -/
structure LeadMetrics where
  total_inquiries : Nat
  booked : Nat
  didnt_book : Nat
  full : Nat
  cold : Nat
  we_turn_down : Nat
  canceled : Nat
  conversion_rate_simple : Rat
  cold_never_acknowledged : Nat
  conversion_rate : Rat
  lead_times : List (String × LTStats)
  days_to_decision : List (String × DStats)
  by_source : List (String × SegStat)
  by_interaction : List (String × SegStat)
  aag_house_bookings : Nat
  deriving DecidableEq, Repr

/-- `calculate_lead_metrics` under the assumption that every required
column exists; `hasVenueCol` records whether the optional
`Venue (if known)` column is present (lines 830-840).  Returns `none` for
the two early `return {}` paths (no 2026 events / no rows with both
dates). -/
def calculate_lead_metrics (hasVenueCol : Bool) (rows : List MRec) :
    Option LeadMetrics :=
  if (ev2026 rows).isEmpty then none
  else if (wdOf rows).isEmpty then none
  else some
    { total_inquiries := (wdOf rows).length
    , booked := countRes (wdOf rows) "Booked"
    , didnt_book := countRes (wdOf rows) "Didn\x27t Book"
    , full := countRes (wdOf rows) "Full"
    , cold := countRes (wdOf rows) "Cold"
    , we_turn_down := countRes (wdOf rows) "We turn down"
    , canceled := countRes (wdOf rows) "Canceled"
    , conversion_rate_simple :=
        if 0 < (wdOf rows).length then
          (countRes (wdOf rows) "Booked" : Rat) / ((wdOf rows).length : Rat)
            * 100
        else 0
    , cold_never_acknowledged := cnaOf rows
    , conversion_rate :=
        if 0 < adjustedDenomOf rows then
          (countRes (wdOf rows) "Booked" : Rat) / (adjustedDenomOf rows : Rat)
            * 100
        else 0
    , lead_times := (leadBuckets (wdOf rows)).filterMap (fun p =>
        if p.2.isEmpty then none else some (p.1, statsOf p.2))
    , days_to_decision := (decisionBuckets (wdOf rows)).filterMap (fun p =>
        if p.2.isEmpty then none else some (p.1, dstatsOf p.2))
    , by_source := segStats (wdOf rows) (fun r => r.initial_contact)
    , by_interaction :=
        segStats (wdOf rows) (fun r => r.level_of_interaction)
    , aag_house_bookings :=
        if hasVenueCol then ((ev2026 rows).filter houseRec).length else 0 }

/-- The input frame as `calculate_lead_metrics` receives it: the rows plus
which of the columns the function indexes are present.  Indexing a missing
column raises a `KeyError` in pandas. -/
structure Frame where
  has_event_date : Bool
  has_inquiry_date : Bool
  has_decision_date : Bool
  has_resolution : Bool
  has_level : Bool
  has_initial_contact : Bool
  has_venue : Bool
  rows : List MRec
  deriving DecidableEq, Repr

/-- `calculate_lead_metrics` on an arbitrary frame: each column access in
source order (`Event Date` line 646, `Inquiry Date`/`Decision Date` lines
653-654, `Resolution` line 666, `Level of interaction` line 711,
`Initial Contact` line 790) raises `KeyError` if the column is missing;
the two `return {}` early exits (lines 648, 657) happen in between. -/
def calculate_lead_metrics_frame (f : Frame) :
    Except String (Option LeadMetrics) :=
  if !f.has_event_date then Except.error "KeyError: Event Date"
  else if (ev2026 f.rows).isEmpty then Except.ok none
  else if !f.has_inquiry_date then Except.error "KeyError: Inquiry Date"
  else if !f.has_decision_date then Except.error "KeyError: Decision Date"
  else if (wdOf f.rows).isEmpty then Except.ok none
  else if !f.has_resolution then Except.error "KeyError: Resolution"
  else if !f.has_level then Except.error "KeyError: Level of interaction"
  else if !f.has_initial_contact then
    Except.error "KeyError: Initial Contact"
  else Except.ok (calculate_lead_metrics f.has_venue f.rows)

/-!  ### Helper lemmas for the funnel-metric claims -/

theorem calc_lead_fields {hv : Bool} {rows : List MRec} {m : LeadMetrics}
    (h : calculate_lead_metrics hv rows = some m) :
    m.total_inquiries = (wdOf rows).length
    ∧ m.booked = countRes (wdOf rows) "Booked"
    ∧ m.aag_house_bookings
        = (if hv then ((ev2026 rows).filter houseRec).length else 0)
    ∧ m.conversion_rate_simple
        = (if 0 < (wdOf rows).length then
            (countRes (wdOf rows) "Booked" : Rat) / ((wdOf rows).length : Rat)
              * 100
          else 0)
    ∧ m.conversion_rate
        = (if 0 < adjustedDenomOf rows then
            (countRes (wdOf rows) "Booked" : Rat)
              / (adjustedDenomOf rows : Rat) * 100
          else 0)
    ∧ m.lead_times = (leadBuckets (wdOf rows)).filterMap (fun p =>
        if p.2.isEmpty then none else some (p.1, statsOf p.2))
    ∧ m.days_to_decision = (decisionBuckets (wdOf rows)).filterMap (fun p =>
        if p.2.isEmpty then none else some (p.1, dstatsOf p.2))
    ∧ (wdOf rows) ≠ [] := by
  unfold calculate_lead_metrics at h
  by_cases he : (ev2026 rows).isEmpty
  · rw [if_pos he] at h
    simp at h
  by_cases hw : (wdOf rows).isEmpty
  · rw [if_neg he, if_pos hw] at h
    simp at h
  rw [if_neg he, if_neg hw] at h
  have hm := Option.some.inj h
  subst hm
  refine ⟨rfl, rfl, rfl, rfl, rfl, rfl, rfl, ?_⟩
  intro hnil
  rw [hnil] at hw
  simp at hw

theorem rate_nonneg_le_100_nat {b t : Nat} (hb : b ≤ t) (ht : 0 < t) :
    0 ≤ ((b : Rat) / (t : Rat) * 100)
      ∧ ((b : Rat) / (t : Rat) * 100) ≤ 100 := by
  have ht2 : (0 : Rat) < (t : Rat) := by exact_mod_cast ht
  constructor
  · positivity
  · have hb2 : (b : Rat) ≤ (t : Rat) := by exact_mod_cast hb
    have hdiv : (b : Rat) / (t : Rat) ≤ 1 := (div_le_one ht2).mpr hb2
    calc (b : Rat) / (t : Rat) * 100
        ≤ 1 * 100 := mul_le_mul_of_nonneg_right hdiv (by norm_num)
      _ = 100 := by norm_num

theorem rate_nonneg_le_100_int {b : Nat} {d : Int} (hb : (b : Int) ≤ d)
    (hd : 0 < d) :
    0 ≤ ((b : Rat) / (d : Rat) * 100)
      ∧ ((b : Rat) / (d : Rat) * 100) ≤ 100 := by
  have hd2 : (0 : Rat) < (d : Rat) := by exact_mod_cast hd
  have hb2 : (b : Rat) ≤ (d : Rat) := by exact_mod_cast hb
  constructor
  · have hb3 : (0 : Rat) ≤ (b : Rat) := by positivity
    have := div_nonneg hb3 (le_of_lt hd2)
    nlinarith
  · have hdiv : (b : Rat) / (d : Rat) ≤ 1 := (div_le_one hd2).mpr hb2
    calc (b : Rat) / (d : Rat) * 100
        ≤ 1 * 100 := mul_le_mul_of_nonneg_right hdiv (by norm_num)
      _ = 100 := by norm_num

theorem sum_four_countP_le {α : Type} (l : List α) (p1 p2 p3 p4 : α → Bool)
    (h : ∀ a ∈ l,
      (if p1 a = true then 1 else 0) + (if p2 a = true then 1 else 0)
        + (if p3 a = true then 1 else 0) + (if p4 a = true then 1 else 0)
        ≤ (1 : Nat)) :
    l.countP p1 + l.countP p2 + l.countP p3 + l.countP p4 ≤ l.length := by
  induction l with
  | nil => simp
  | cons a t ih =>
    have ha := h a (List.mem_cons_self a t)
    have iht := ih (fun b hb => h b (List.mem_cons_of_mem a hb))
    simp only [List.countP_cons, List.length_cons]
    split_ifs at ha ⊢ <;> omega

theorem at_most_one_res (a : MRec) :
    (if (a.resolution == "Booked") = true then 1 else 0)
      + (if (a.resolution == "Full") = true then 1 else 0)
      + (if (a.resolution == "We turn down") = true then 1 else 0)
      + (if (a.resolution == "Cold"
          && a.level_of_interaction == "Never acknowledged") = true
         then 1 else 0)
      ≤ (1 : Nat) := by
  by_cases h1 : a.resolution = "Booked"
  · simp [h1]
  · by_cases h2 : a.resolution = "Full"
    · simp [h1, h2]
    · by_cases h3 : a.resolution = "We turn down"
      · simp [h1, h2, h3]
      · simp [h1, h2, h3]
        split_ifs <;> omega

theorem countRes_eq_countP (l : List MRec) (s : String) :
    countRes l s = l.countP (fun r => r.resolution == s) :=
  (List.countP_eq_length_filter _ _).symm

theorem res_counts_le (l : List MRec) :
    countRes l "Booked" + countRes l "Full" + countRes l "We turn down"
      + (l.filter (fun r => r.resolution == "Cold"
          && r.level_of_interaction == "Never acknowledged")).length
      ≤ l.length := by
  rw [countRes_eq_countP, countRes_eq_countP, countRes_eq_countP,
    ← List.countP_eq_length_filter]
  exact sum_four_countP_le l _ _ _ _ (fun a _ => at_most_one_res a)

/-!  ### Claims about the funnel metrics -/

/-- Default report used to name the computed metrics inside witnesses. -/
def mDefault : LeadMetrics :=
  { total_inquiries := 0, booked := 0, didnt_book := 0, full := 0, cold := 0
  , we_turn_down := 0, canceled := 0, conversion_rate_simple := 0
  , cold_never_acknowledged := 0, conversion_rate := 0, lead_times := []
  , days_to_decision := [], by_source := [], by_interaction := []
  , aag_house_bookings := 0 }

/-- A house-venue handoff record that also carries both dates. -/
def rowC3 : MRec :=
  { event_date := DateField.resolved ⟨2026, 100⟩
  , inquiry_date := DateField.resolved ⟨2026, 10⟩
  , decision_date := DateField.resolved ⟨2026, 20⟩
  , resolution := "Booked"
  , level_of_interaction := "Never acknowledged"
  , initial_contact := "Web"
  , venue := "AAG" }

/-- **C3, counterexample**: a house-venue record (venue "AAG", Booked,
Never acknowledged) carrying both dates is counted in `house_bookings`
AND in `total_inquiries` / `booked` — it is not excluded from the funnel
denominators, contradicting the claim. -/
theorem claim_C3_counterexample :
    (calculate_lead_metrics true [rowC3]).map
        (fun m => (m.total_inquiries, m.booked, m.aag_house_bookings))
      = some (1, 1, 1)
    ∧ houseRec rowC3 = true ∧ hasBothDates rowC3 = true :=
  ⟨rfl, rfl, rfl⟩

/-- **C3, amended**: house-venue records are tallied in the separate
`aag_house_bookings` count (over all in-scope 2026 events, when the venue
column exists), but they are NOT excluded from the funnel denominators:
`total_inquiries` counts the house and the non-house with-dates records
alike. -/
theorem claim_C3_amended (hv : Bool) (rows : List MRec) (m : LeadMetrics)
    (h : calculate_lead_metrics hv rows = some m) :
    m.aag_house_bookings
        = (if hv then ((ev2026 rows).filter houseRec).length else 0)
    ∧ m.total_inquiries
        = ((wdOf rows).filter houseRec).length
          + ((wdOf rows).filter (fun r => !(houseRec r))).length := by
  obtain ⟨ht, _, ha, _⟩ := calc_lead_fields h
  refine ⟨ha, ?_⟩
  rw [ht]
  have hp := (List.filter_append_perm houseRec (wdOf rows)).length_eq
  rw [List.length_append] at hp
  omega

theorem claim_C3_amended_witness :
    ((calculate_lead_metrics true [rowC3]).getD mDefault).aag_house_bookings
        = (if true then ((ev2026 [rowC3]).filter houseRec).length else 0)
    ∧ ((calculate_lead_metrics true [rowC3]).getD mDefault).total_inquiries
        = ((wdOf [rowC3]).filter houseRec).length
          + ((wdOf [rowC3]).filter (fun r => !(houseRec r))).length :=
  claim_C3_amended true [rowC3]
    ((calculate_lead_metrics true [rowC3]).getD mDefault) rfl

/-- A 2026 record whose inquiry/decision date cells are non-blank but
unparseable. -/
def rowC4 : MRec :=
  { event_date := DateField.resolved ⟨2026, 50⟩
  , inquiry_date := DateField.junk
  , decision_date := DateField.junk
  , resolution := "Booked"
  , level_of_interaction := "Only acknowledged"
  , initial_contact := "Web"
  , venue := "Hall" }

/-- **C4, counterexample**: a record with non-blank but unparseable
inquiry/decision dates is counted in `total_inquiries` and the resolution
counts (the filter checks non-blankness only), even though no record
carries two parseable dates — contradicting the claim's "if and only if
parseable" condition. -/
theorem claim_C4_counterexample :
    (calculate_lead_metrics true [rowC4]).map
        (fun m => (m.total_inquiries, m.booked)) = some (1, 1)
    ∧ presentDF rowC4.inquiry_date = true
    ∧ parsedDF rowC4.inquiry_date = false
    ∧ ([rowC4].filter (fun r => is_2026_event r
        && (parsedDF r.inquiry_date && parsedDF r.decision_date))).length
      = 0 :=
  ⟨rfl, rfl, rfl, rfl⟩

/-- **C4, amended**: a record participates in the conversion/rate metrics
iff its event date resolves to 2026 and its `inquiry_date` and
`decision_date` cells are both non-blank — parseability is not required
for the counts (only the lead-time/decision-time distributions skip
unparseable dates). -/
theorem claim_C4_amended (hv : Bool) (rows : List MRec) (m : LeadMetrics)
    (h : calculate_lead_metrics hv rows = some m) :
    m.total_inquiries
      = (rows.filter (fun r => is_2026_event r && hasBothDates r)).length := by
  obtain ⟨ht, _⟩ := calc_lead_fields h
  rw [ht]
  unfold wdOf ev2026
  rw [List.filter_filter]
  congr 1
  exact List.filter_congr
    (fun r _ => Bool.and_comm (hasBothDates r) (is_2026_event r))

/-- A well-dated non-house 2026 record. -/
def rowC4w : MRec :=
  { event_date := DateField.resolved ⟨2026, 60⟩
  , inquiry_date := DateField.resolved ⟨2026, 1⟩
  , decision_date := DateField.resolved ⟨2026, 2⟩
  , resolution := "Cold"
  , level_of_interaction := "Only acknowledged"
  , initial_contact := "Referral"
  , venue := "Barn" }

theorem claim_C4_amended_witness :
    ((calculate_lead_metrics true [rowC4w]).getD mDefault).total_inquiries
      = ([rowC4w].filter
          (fun r => is_2026_event r && hasBothDates r)).length :=
  claim_C4_amended true [rowC4w]
    ((calculate_lead_metrics true [rowC4w]).getD mDefault) rfl

/-- The claim's "lower of the two central values" (lower median). -/
def specLowerMedian (l : List Int) : Int :=
  (sortInts l).getD ((l.length - 1) / 2) 0

def rowC5a : MRec :=
  { event_date := DateField.resolved ⟨2026, 110⟩
  , inquiry_date := DateField.resolved ⟨2026, 100⟩
  , decision_date := DateField.resolved ⟨2026, 105⟩
  , resolution := "Booked"
  , level_of_interaction := "Only acknowledged"
  , initial_contact := "Web"
  , venue := "Hall" }

def rowC5b : MRec :=
  { event_date := DateField.resolved ⟨2026, 120⟩
  , inquiry_date := DateField.resolved ⟨2026, 100⟩
  , decision_date := DateField.resolved ⟨2026, 101⟩
  , resolution := "Booked"
  , level_of_interaction := "Only acknowledged"
  , initial_contact := "Web"
  , venue := "Hall" }

def rowsC5 : List MRec := [rowC5a, rowC5b]

/-- **C5, counterexample**: the lead-time bucket `[10, 20]` (even length)
reports median 20 — the element at index `len // 2 = 1`, the UPPER of the
two central values — while the claim's "lower of the two central values"
is 10. -/
theorem claim_C5_counterexample :
    (calculate_lead_metrics true rowsC5).map
        (fun m => m.lead_times.map (fun p => (p.1, p.2.median_days)))
      = some [("Booked", 20)]
    ∧ specLowerMedian [10, 20] = 10
    ∧ (20 : Int) ≠ 10 :=
  ⟨rfl, rfl, by decide⟩

/-- **C5, amended**: every reported lead-time / decision-time median is the
element at index `len // 2` of the sorted bucket; for an odd-length bucket
this is the true middle value, but for an even-length bucket it is the
UPPER of the two central values (index `n/2`, not `n/2 − 1`). -/
theorem claim_C5_amended (hv : Bool) (rows : List MRec) (m : LeadMetrics)
    (h : calculate_lead_metrics hv rows = some m) :
    (∀ p ∈ m.lead_times, ∃ ts, (p.1, ts) ∈ leadBuckets (wdOf rows)
      ∧ ts ≠ []
      ∧ p.2.median_days = (sortInts ts).getD (ts.length / 2) 0
      ∧ (ts.length % 2 = 1 →
          p.2.median_days = (sortInts ts).getD ((ts.length - 1) / 2) 0))
    ∧ (∀ p ∈ m.days_to_decision, ∃ ts,
        (p.1, ts) ∈ decisionBuckets (wdOf rows)
      ∧ ts ≠ []
      ∧ p.2.median_days = (sortInts ts).getD (ts.length / 2) 0
      ∧ (ts.length % 2 = 1 →
          p.2.median_days = (sortInts ts).getD ((ts.length - 1) / 2) 0)) := by
  obtain ⟨_, _, _, _, _, hlt, hdd, _⟩ := calc_lead_fields h
  constructor
  · intro p hp
    rw [hlt] at hp
    rcases List.mem_filterMap.mp hp with ⟨a, ha, hfa⟩
    by_cases hne : a.2.isEmpty
    · rw [if_pos hne] at hfa
      simp at hfa
    · rw [if_neg hne] at hfa
      have hpa := Option.some.inj hfa
      subst hpa
      refine ⟨a.2, by simpa using ha, ?_, rfl, ?_⟩
      · intro hnil
        rw [hnil] at hne
        exact hne rfl
      · intro hodd
        have hidx : a.2.length / 2 = (a.2.length - 1) / 2 := by omega
        show (sortInts a.2).getD (a.2.length / 2) 0
          = (sortInts a.2).getD ((a.2.length - 1) / 2) 0
        rw [hidx]
  · intro p hp
    rw [hdd] at hp
    rcases List.mem_filterMap.mp hp with ⟨a, ha, hfa⟩
    by_cases hne : a.2.isEmpty
    · rw [if_pos hne] at hfa
      simp at hfa
    · rw [if_neg hne] at hfa
      have hpa := Option.some.inj hfa
      subst hpa
      refine ⟨a.2, by simpa using ha, ?_, rfl, ?_⟩
      · intro hnil
        rw [hnil] at hne
        exact hne rfl
      · intro hodd
        have hidx : a.2.length / 2 = (a.2.length - 1) / 2 := by omega
        show (sortInts a.2).getD (a.2.length / 2) 0
          = (sortInts a.2).getD ((a.2.length - 1) / 2) 0
        rw [hidx]

/-- A record producing one odd-length bucket. -/
def rowC5w : MRec :=
  { event_date := DateField.resolved ⟨2026, 107⟩
  , inquiry_date := DateField.resolved ⟨2026, 100⟩
  , decision_date := DateField.resolved ⟨2026, 103⟩
  , resolution := "Booked"
  , level_of_interaction := "Only acknowledged"
  , initial_contact := "Web"
  , venue := "Hall" }

theorem claim_C5_amended_witness :
    (∀ p ∈ ((calculate_lead_metrics true [rowC5w]).getD mDefault).lead_times,
      ∃ ts, (p.1, ts) ∈ leadBuckets (wdOf [rowC5w])
      ∧ ts ≠ []
      ∧ p.2.median_days = (sortInts ts).getD (ts.length / 2) 0
      ∧ (ts.length % 2 = 1 →
          p.2.median_days = (sortInts ts).getD ((ts.length - 1) / 2) 0))
    ∧ (∀ p ∈ ((calculate_lead_metrics true
          [rowC5w]).getD mDefault).days_to_decision,
      ∃ ts, (p.1, ts) ∈ decisionBuckets (wdOf [rowC5w])
      ∧ ts ≠ []
      ∧ p.2.median_days = (sortInts ts).getD (ts.length / 2) 0
      ∧ (ts.length % 2 = 1 →
          p.2.median_days = (sortInts ts).getD ((ts.length - 1) / 2) 0)) :=
  claim_C5_amended true [rowC5w]
    ((calculate_lead_metrics true [rowC5w]).getD mDefault) rfl

/-- **C8**: when the funnel metrics are computed (a non-empty report), both
conversion rates lie in `[0, 100]`; the simple rate is 0 whenever its
denominator `total_inquiries` is ≤ 0 (vacuously, since a computed report
has at least one record), and the adjusted rate is exactly 0 whenever the
adjusted denominator is ≤ 0. -/
theorem claim_C8_conversion_bounds (hv : Bool) (rows : List MRec)
    (m : LeadMetrics) (h : calculate_lead_metrics hv rows = some m) :
    0 ≤ m.conversion_rate_simple ∧ m.conversion_rate_simple ≤ 100
    ∧ 0 ≤ m.conversion_rate ∧ m.conversion_rate ≤ 100
    ∧ ((m.total_inquiries : Int) ≤ 0 → m.conversion_rate_simple = 0)
    ∧ (adjustedDenomOf rows ≤ 0 → m.conversion_rate = 0) := by
  obtain ⟨ht, _, _, hs, hc, _, _, hne⟩ := calc_lead_fields h
  have hpos : 0 < (wdOf rows).length := List.length_pos.mpr hne
  have hble : countRes (wdOf rows) "Booked" ≤ (wdOf rows).length :=
    List.length_filter_le _ _
  have hsimple := rate_nonneg_le_100_nat hble hpos
  have h4 := res_counts_le (wdOf rows)
  have hba : (countRes (wdOf rows) "Booked" : Int) ≤ adjustedDenomOf rows := by
    unfold adjustedDenomOf cnaOf
    omega
  refine ⟨?_, ?_, ?_, ?_, ?_, ?_⟩
  · rw [hs, if_pos hpos]
    exact hsimple.1
  · rw [hs, if_pos hpos]
    exact hsimple.2
  · rw [hc]
    split_ifs with hd
    · exact (rate_nonneg_le_100_int hba hd).1
    · norm_num
  · rw [hc]
    split_ifs with hd
    · exact (rate_nonneg_le_100_int hba hd).2
    · norm_num
  · intro hle
    rw [ht] at hle
    exfalso
    omega
  · intro hd
    rw [hc, if_neg (by omega)]

/-- A record making both conversion denominators positive. -/
def rowC8w : MRec :=
  { event_date := DateField.resolved ⟨2026, 90⟩
  , inquiry_date := DateField.resolved ⟨2026, 10⟩
  , decision_date := DateField.resolved ⟨2026, 30⟩
  , resolution := "Booked"
  , level_of_interaction := "Had phone call/video chat"
  , initial_contact := "Referral"
  , venue := "Hall" }

theorem claim_C8_conversion_bounds_witness :
    0 ≤ ((calculate_lead_metrics true [rowC8w]).getD
        mDefault).conversion_rate_simple
    ∧ ((calculate_lead_metrics true [rowC8w]).getD
        mDefault).conversion_rate_simple ≤ 100
    ∧ 0 ≤ ((calculate_lead_metrics true [rowC8w]).getD
        mDefault).conversion_rate
    ∧ ((calculate_lead_metrics true [rowC8w]).getD
        mDefault).conversion_rate ≤ 100
    ∧ ((((calculate_lead_metrics true [rowC8w]).getD
        mDefault).total_inquiries : Int) ≤ 0 →
        ((calculate_lead_metrics true [rowC8w]).getD
          mDefault).conversion_rate_simple = 0)
    ∧ (adjustedDenomOf [rowC8w] ≤ 0 →
        ((calculate_lead_metrics true [rowC8w]).getD
          mDefault).conversion_rate = 0) :=
  claim_C8_conversion_bounds true [rowC8w]
    ((calculate_lead_metrics true [rowC8w]).getD mDefault) rfl

/-- The entirely empty input frame (no header row ⇒ no columns, no rows),
as `calculate_lead_metrics(pd.DataFrame())` receives it. -/
def frameC9 : Frame :=
  { has_event_date := false, has_inquiry_date := false
  , has_decision_date := false, has_resolution := false
  , has_level := false, has_initial_contact := false
  , has_venue := false, rows := [] }

/-- **C9, counterexample**: on entirely empty input (hence no columns) the
computation raises a `KeyError` on `df["Event Date"]` instead of returning
an empty report — the claim's "never raises" fails. -/
theorem claim_C9_counterexample :
    calculate_lead_metrics_frame frameC9
      = Except.error "KeyError: Event Date"
    ∧ (calculate_lead_metrics_frame frameC9).isOk = false :=
  ⟨rfl, rfl⟩

/-- **C9, amended**: when every column the function indexes is present,
the computation never raises; empty input, or input with zero in-scope
records, yields the empty report (`{}`, modelled as `none`).  Missing
required columns instead raise a `KeyError`, which the caller catches. -/
theorem claim_C9_amended (f : Frame)
    (h1 : f.has_event_date = true) (h2 : f.has_inquiry_date = true)
    (h3 : f.has_decision_date = true) (h4 : f.has_resolution = true)
    (h5 : f.has_level = true) (h6 : f.has_initial_contact = true) :
    (calculate_lead_metrics_frame f).isOk = true
    ∧ (f.rows = [] →
        calculate_lead_metrics_frame f = Except.ok none) := by
  constructor
  · unfold calculate_lead_metrics_frame
    rw [h1, h2, h3, h4, h5, h6]
    simp only [Bool.not_true, Bool.false_eq_true, if_false]
    split_ifs <;> rfl
  · intro hr
    unfold calculate_lead_metrics_frame
    rw [h1, hr]
    simp [ev2026]

/-- An empty frame with every column present. -/
def frameC9w : Frame :=
  { has_event_date := true, has_inquiry_date := true
  , has_decision_date := true, has_resolution := true
  , has_level := true, has_initial_contact := true
  , has_venue := true, rows := [] }

theorem claim_C9_amended_witness :
    (calculate_lead_metrics_frame frameC9w).isOk = true
    ∧ (frameC9w.rows = [] →
        calculate_lead_metrics_frame frameC9w = Except.ok none) :=
  claim_C9_amended frameC9w rfl rfl rfl rfl rfl rfl

/-!  ## Pace comparison (`calculate_booking_pace`, lines 329-403)

One pace row carries the resolved value of its `Day` label for the current
year (the `strptime("%b %d %Y")` outcome, abstracted as `none` when the
label does not parse, or the absolute day index when it does) and the raw
text of the current-year and prior-year cells.  `today` is the current
absolute day index. -/

structure PaceRow where
  day : Option Int
  current_cell : String
  last_cell : String
  deriving DecidableEq, Repr

/-- Digits-to-value for `int(...)` (empty digit list fails). -/
def digitsVal (cs : List Char) : Option Nat :=
  if cs.isEmpty then none
  else cs.foldl (fun acc c =>
    match acc with
    | none => none
    | some n => if c.isDigit then some (n * 10 + (c.toNat - 48)) else none)
    (some 0)

/-- Python `int(s)` on a string: optional sign and ASCII digits after
stripping whitespace; `none` models the `ValueError`. -/
def pyToInt (s : String) : Option Int :=
  match trimChars s.data with
  | '-' :: cs => (digitsVal cs).map (fun n => -(n : Int))
  | '+' :: cs => (digitsVal cs).map (fun n => (n : Int))
  | cs => (digitsVal cs).map (fun n => (n : Int))

/-- A row qualifies as comparison candidate (lines 367-380): its
current-year cell is non-empty (the `== 0` test never fires on sheet
strings) and its day label resolves to a date on or before `today`. -/
def qualifiesPace (today : Int) (r : PaceRow) : Bool :=
  !(r.current_cell == "") &&
    (match r.day with
     | some d => d ≤ today
     | none => false)

/-- The selection loop (lines 363-381): iterate the rows in order and
overwrite `best_row` with every qualifying row. -/
def paceBest (rows : List PaceRow) (today : Int) : Option PaceRow :=
  rows.foldl (fun acc r => if qualifiesPace today r then some r else acc)
    none

/-- Lines 393-399: one `try` block coerces BOTH cells; a `ValueError` on
either (non-empty, non-numeric text) resets both counts to 0.  An empty
(falsy) cell becomes 0 without attempting `int(...)`. -/
def pyCoercePair (c l : String) : Int × Int :=
  match (if c == "" then some 0 else pyToInt c) with
  | none => (0, 0)
  | some cv =>
      match (if l == "" then some 0 else pyToInt l) with
      | none => (0, 0)
      | some lv => (cv, lv)

/-- `calculate_booking_pace` over the pace rows (both year columns
present): select the comparison row, coerce the two cells, return
`(current, last_year, diff)`; `none` models the "no matching day"
result. -/
def calculate_booking_pace (rows : List PaceRow) (today : Int) :
    Option (Int × Int × Int) :=
  match paceBest rows today with
  | none => none
  | some r =>
      match pyCoercePair r.current_cell r.last_cell with
      | (cv, lv) => some (cv, lv, cv - lv)

/-- The claim's selection rule: among qualifying rows, the one with the
LATEST resolved date (position-independent). -/
def specLatestRow (rows : List PaceRow) (today : Int) : Option PaceRow :=
  (rows.filter (qualifiesPace today)).foldl (fun acc r =>
    match acc with
    | none => some r
    | some b => if b.day.getD 0 < r.day.getD 0 then some r else acc) none

/-!  ### Claims about the pace comparison -/

def rowC6a : PaceRow := { day := some 5, current_cell := "7", last_cell := "3" }

def rowC6b : PaceRow := { day := some 2, current_cell := "4", last_cell := "1" }

def rowsC6 : List PaceRow := [rowC6a, rowC6b]

/-- **C6, counterexample**: with the qualifying rows listed out of date
order (day 5 first, then day 2), the loop keeps the LAST row in table
order (day 2, value 4), not the latest-dated row (day 5, value 7), so the
selection is not position-independent. -/
theorem claim_C6_counterexample :
    calculate_booking_pace rowsC6 10 = some (4, 1, 3)
    ∧ (specLatestRow rowsC6 10).map (fun r => r.current_cell) = some "7"
    ∧ pyToInt "7" = some 7
    ∧ some ((4 : Int), (1 : Int), (3 : Int)) ≠ some ((7 : Int), 3, 4) :=
  ⟨rfl, rfl, rfl, by decide⟩

theorem foldl_overwrite (q : PaceRow → Bool) (l : List PaceRow)
    (acc : Option PaceRow) :
    l.foldl (fun a r => if q r then some r else a) acc
      = ((l.filter q).getLast?).or acc := by
  induction l generalizing acc with
  | nil => simp
  | cons r t ih =>
    rw [List.foldl_cons, List.filter_cons]
    by_cases hq : q r
    · rw [if_pos hq, if_pos hq, ih, List.getLast?_cons]
      cases hg : (t.filter q).getLast? with
      | none => simp [hg]
      | some x => simp [hg]
    · rw [if_neg hq, if_neg hq, ih]

/-- **C6, amended**: the pace comparison selects the LAST qualifying row
in table order (equivalently, the latest-dated qualifying row only when
the table is listed in ascending date order), and reads its two cells
through the joint coercion. -/
theorem claim_C6_amended (rows : List PaceRow) (today : Int) :
    paceBest rows today = (rows.filter (qualifiesPace today)).getLast?
    ∧ calculate_booking_pace rows today
      = match (rows.filter (qualifiesPace today)).getLast? with
        | none => none
        | some r => some ((pyCoercePair r.current_cell r.last_cell).1,
            (pyCoercePair r.current_cell r.last_cell).2,
            (pyCoercePair r.current_cell r.last_cell).1
              - (pyCoercePair r.current_cell r.last_cell).2) := by
  have h1 : paceBest rows today
      = (rows.filter (qualifiesPace today)).getLast? := by
    unfold paceBest
    rw [foldl_overwrite]
    exact Option.or_none
  refine ⟨h1, ?_⟩
  unfold calculate_booking_pace
  rw [h1]

def rowC7 : PaceRow := { day := some 1, current_cell := "8", last_cell := "abc" }

/-- **C7, counterexample**: the selected row has numeric current-year cell
"8" and non-numeric prior-year cell "abc"; the shared `try` block resets
BOTH counts to 0, so the numeric 8 is NOT reported unchanged. -/
theorem claim_C7_counterexample :
    calculate_booking_pace [rowC7] 5 = some (0, 0, 0)
    ∧ pyToInt "8" = some 8
    ∧ rowC7.last_cell ≠ ""
    ∧ pyToInt "abc" = none :=
  ⟨rfl, rfl, by decide, rfl⟩

/-- **C7, amended**: empty cells coerce to 0 and numeric cells pass
through, but the coercion is JOINT, not independent: a non-empty
non-numeric cell in either column forces BOTH reported counts to 0. -/
theorem claim_C7_amended (c l : String) :
    ((c ≠ "" ∧ pyToInt c = none) ∨ (l ≠ "" ∧ pyToInt l = none) →
      pyCoercePair c l = (0, 0))
    ∧ (∀ i j : Int, pyToInt c = some i → pyToInt l = some j →
        pyCoercePair c l = (i, j))
    ∧ (c = "" → ∀ j : Int, pyToInt l = some j → pyCoercePair c l = (0, j))
    ∧ (l = "" → ∀ i : Int, pyToInt c = some i → pyCoercePair c l = (i, 0))
    ∧ (c = "" → l = "" → pyCoercePair c l = (0, 0)) := by
  have hemp : pyToInt "" = none := rfl
  refine ⟨?_, ?_, ?_, ?_, ?_⟩
  · rintro (⟨hc, hcn⟩ | ⟨hl, hln⟩)
    · unfold pyCoercePair
      rw [if_neg (by simp [hc]), hcn]
    · unfold pyCoercePair
      cases hcv : (if c == "" then some 0 else pyToInt c) with
      | none => rfl
      | some cv => rw [if_neg (by simp [hl]), hln]
  · intro i j hci hlj
    have hc0 : ¬(c = "") := by
      intro h
      rw [h, hemp] at hci
      exact Option.noConfusion hci
    have hl0 : ¬(l = "") := by
      intro h
      rw [h, hemp] at hlj
      exact Option.noConfusion hlj
    unfold pyCoercePair
    rw [if_neg (by simp [hc0]), hci, if_neg (by simp [hl0]), hlj]
  · intro hc0 j hlj
    have hl0 : ¬(l = "") := by
      intro h
      rw [h, hemp] at hlj
      exact Option.noConfusion hlj
    unfold pyCoercePair
    rw [if_pos (by simp [hc0]), if_neg (by simp [hl0]), hlj]
  · intro hl0 i hci
    have hc0 : ¬(c = "") := by
      intro h
      rw [h, hemp] at hci
      exact Option.noConfusion hci
    unfold pyCoercePair
    rw [if_neg (by simp [hc0]), hci, if_pos (by simp [hl0])]
  · intro hc0 hl0
    unfold pyCoercePair
    rw [if_pos (by simp [hc0]), if_pos (by simp [hl0])]

theorem claim_C7_amended_witness :
    pyCoercePair "8" "abc" = (0, 0) ∧ pyCoercePair "8" "5" = (8, 5) :=
  ⟨(claim_C7_amended "8" "abc").1 (Or.inr ⟨by decide, rfl⟩),
   (claim_C7_amended "8" "5").2.1 8 5 rfl rfl⟩
